import Mathlib

/-!
Verification of the layer-fixing rewrite tool (fix_layers.py).

The tool reads a source file, applies an ordered list of find/replace rules
(re.sub with the concrete patterns below), then locates the old result-builder
method with a lazy regular expression and substitutes a new method body
(str.replace), and finally writes the buffer back.  Text is modelled as
`List Char`; each Python pattern is translated into an explicit matcher with
the semantics the regex engine gives it on that concrete pattern (the patterns
are literals, literals joined by greedy whitespace runs, literals with one or
two negated-character-class captures, and one lazy scan-to-delimiter search).
Braces and apostrophes inside string literals are written with \x7b, \x7d and
\x27 escapes.
-/

namespace FixLayers

set_option maxRecDepth 8000

/-- ASCII whitespace, the characters of the whitespace class that occur in the
rewritten sources (space, tab, LF, CR). -/
def isWs (c : Char) : Bool := c = ' ' || c = '\t' || c = '\n' || c = '\r'

/-- A matcher recognises one pattern occurrence at the start of the text.
On success it returns the replacement for the matched span and the remaining
text after the span. -/
abbrev Matcher := List Char → Option (List Char × List Char)

/-- Left-to-right, non-overlapping scan-and-substitute with explicit fuel: the
semantics shared by re.sub over the patterns of fix_layers.py and by
str.replace.  At each position the matcher is tried; on a match its replacement
is emitted and scanning resumes after the matched span, otherwise the character
is kept and the scan moves one to the right.  Every matcher used here consumes
at least one character on success; the inner guard records that fact, and fuel
equal to the text length (as supplied by `subAll`) always suffices. -/
def subAllF (m : Matcher) : Nat → List Char → List Char
  | 0, s => s
  | _ + 1, [] => []
  | f + 1, c :: cs =>
    match m (c :: cs) with
    | some (r, rest) => r ++ subAllF m f (if rest.length ≤ cs.length then rest else cs)
    | none => c :: subAllF m f cs

/-- Scan-and-substitute over the whole text. -/
def subAll (m : Matcher) (s : List Char) : List Char := subAllF m s.length s

/-- Match a literal at the start of the text, returning the rest. -/
def matchLit : List Char → List Char → Option (List Char)
  | [], s => some s
  | _ :: _, [] => none
  | l :: ls, c :: cs => if c = l then matchLit ls cs else none

/-- A plain literal find/replace rule (an re.sub whose pattern has no
metacharacters beyond escaped punctuation). -/
def litRule (lit repl : List Char) : Matcher := fun s =>
  if lit ≠ [] ∧ lit <+: s then some (repl, s.drop lit.length) else none

/-- Split the text at the first occurrence of the literal `pat`: returns the
part before the occurrence and the part after it.  This is the semantics of a
lazy scan `.*?pat` inside the block-search regular expression. -/
def splitFirst (pat : List Char) : List Char → Option (List Char × List Char)
  | [] => none
  | c :: cs =>
    if pat <+: c :: cs then some ([], (c :: cs).drop pat.length)
    else (splitFirst pat cs).map (fun ab => (c :: ab.1, ab.2))

/-- Scan every start position of the text for a matcher success (re.search
viewed as a Boolean). -/
def hasMatch (m : Matcher) : List Char → Bool
  | [] => (m []).isSome
  | c :: cs => (m (c :: cs)).isSome || hasMatch m cs

/-! ### The concrete patterns and replacements of fix_layers.py -/

/-- Pattern of the first import-stripping rule. -/
def impLit1 : List Char := "import \x27../models/translation_result.dart\x27;\n".toList

/-- Pattern of the second import-stripping rule. -/
def impLit2 : List Char := "import \x27../utils/exceptions.dart\x27;\n".toList

/-- The anchor matched by the description-getter rule: the existing name getter
followed by the old int priority getter. -/
def anchorLit : List Char :=
  "@override\n  String get name => layerName;\n\n  @override\n  int get priority => layerPriority;".toList

/-- Fixed part of the description-getter replacement before the description. -/
def tmplPre : List Char :=
  "@override\n  String get name => layerName;\n\n  @override\n  String get description => \x27".toList

/-- Fixed part of the description-getter replacement between the description and
the priority label. -/
def tmplMid : List Char :=
  "\x27;\n\n  @override\n  LayerPriority get priority => LayerPriority.".toList

/-- Fixed tail of the description-getter replacement. -/
def tmplPost : List Char := ";".toList

/-- The replacement template of the description-getter rule, an f-string over
the entity description and priority label (the entity name is not referenced). -/
def tmpl (d p : List Char) : List Char := tmplPre ++ d ++ tmplMid ++ p ++ tmplPost

/-- Old canHandle signature. -/
def canHandleLit : List Char := "bool canHandle(TranslationContext context)".toList

/-- New canHandle signature. -/
def canHandleRepl : List Char := "bool canHandle(String text, TranslationContext context)".toList

/-- Old process signature. -/
def processLit : List Char := "Future<LayerResult> process(TranslationContext context)".toList

/-- New process signature. -/
def processRepl : List Char := "Future<LayerResult> process(String text, TranslationContext context)".toList

/-- First literal chunk of the LayerDebugInfo-creation pattern. -/
def dbgLit1 : List Char := "final debugInfo = LayerDebugInfo(".toList

/-- Second literal chunk of the LayerDebugInfo-creation pattern. -/
def dbgLit2 : List Char := "layerName: name,".toList

/-- Third literal chunk of the LayerDebugInfo-creation pattern. -/
def dbgLit3 : List Char := "startTime: DateTime.now(),".toList

/-- Final literal chunk of the LayerDebugInfo-creation pattern. -/
def dbgLit4 : List Char := ");".toList

/-- Replacement of the LayerDebugInfo creation: a single timestamp capture. -/
def dbgRepl : List Char := "final startTime = DateTime.now();".toList

/-- Old text-initialization expression. -/
def curTextLit : List Char := "String currentText = context.translatedText ?? \x27\x27;".toList

/-- New text-initialization expression. -/
def curTextRepl : List Char := "String currentText = context.translatedText ?? text;".toList

/-- Literal head of the old result-helper call pattern, up to the opening quote
of the message capture. -/
def callLit1 : List Char :=
  "return _createResult(false, context, stopwatch, debugInfo, \x27".toList

/-- Literal tail of the old result-helper call pattern after the message. -/
def callLit2 : List Char := "\x27);".toList

/-- Head of the rewritten result-helper call, up to the opening quote. -/
def callRepl1 : List Char :=
  "return _createResult(text, false, stopwatch, startTime, \x27".toList

/-- Tail of the rewritten result-helper call after the message. -/
def callRepl2 : List Char := "\x27);".toList

/-- Literal head of the details-mutation pattern, up to the key capture. -/
def detLit1 : List Char := "debugInfo.details[\x27".toList

/-- Literal middle of the details-mutation pattern between key and value. -/
def detLit2 : List Char := "\x27] = ".toList

/-- Literal tail of the details-mutation pattern. -/
def detLit3 : List Char := ";".toList

/-- Head of the comment replacing a details mutation. -/
def detRepl1 : List Char := "// ".toList

/-- Middle of the comment replacing a details mutation. -/
def detRepl2 : List Char := ": ".toList

/-- Tail of the comment replacing a details mutation. -/
def detRepl3 : List Char := " (moved to additionalInfo)".toList

/-- Literal head of the block-search pattern: the result builder signature. -/
def blockLit : List Char := "LayerResult _createResult(".toList

/-- The close-parenthesis-open-brace delimiter of the block-search pattern. -/
def blockMid : List Char := ") \x7b".toList

/-- The closing delimiter the lazy block-search pattern stops at. -/
def blockEnd : List Char := "\x7d".toList

/-- The replacement method body installed by the block substitution step,
exactly as written in fix_layers.py (including trailing spaces after
`bool success, ` and `Stopwatch stopwatch, ` and the four-space line after
`stopwatch.stop();`). -/
def newBlock : List Char :=
  ("LayerResult _createResult(\n    String processedText,\n    bool success, \n    Stopwatch stopwatch, \n    DateTime startTime,\n    [String? error,\n    Map<String, dynamic>? additionalInfo]\n  ) \x7b\n    stopwatch.stop();\n    \n    final debugInfo = LayerDebugInfo(\n      layerName: name,\n      processingTimeMs: stopwatch.elapsedMilliseconds,\n      isSuccessful: success,\n      hasError: error != null,\n      errorMessage: error,\n      additionalInfo: additionalInfo ?? \x7b\x7d,\n    );\n\n    if (success) \x7b\n      return LayerResult.success(\n        processedText: processedText,\n        debugInfo: debugInfo,\n      );\n    \x7d else \x7b\n      return LayerResult.error(\n        originalText: processedText,\n        errorMessage: error ?? \x27Unknown error\x27,\n        debugInfo: debugInfo,\n      );\n    \x7d\n  \x7d").toList

/-! ### Per-rule matchers and rule applications -/

/-- Matcher of the LayerDebugInfo-creation rule: four literal chunks joined by
greedy whitespace runs.  Because each following literal starts with a
non-whitespace character, the greedy runs deterministically skip the maximal
whitespace. -/
def dbgMatcher : Matcher := fun s =>
  match matchLit dbgLit1 s with
  | none => none
  | some r1 =>
    match matchLit dbgLit2 (r1.dropWhile isWs) with
    | none => none
    | some r2 =>
      match matchLit dbgLit3 (r2.dropWhile isWs) with
      | none => none
      | some r3 =>
        match matchLit dbgLit4 (r3.dropWhile isWs) with
        | none => none
        | some rest => some (dbgRepl, rest)

/-- Matcher of the result-helper call rule: a literal head, a nonempty capture
of non-apostrophe characters (the message), and a literal tail; the capture is
spliced into the replacement where the template references the group. -/
def callMatcher : Matcher := fun s =>
  (matchLit callLit1 s).bind (fun r1 =>
    let cap := r1.takeWhile (fun c => ¬ c = '\x27')
    if cap = [] then none
    else (matchLit callLit2 (r1.drop cap.length)).map (fun rest =>
      (callRepl1 ++ cap ++ callRepl2, rest)))

/-- Matcher of the details-mutation rule: literal chunks around a nonempty
non-apostrophe key capture and a nonempty non-semicolon value capture, both
spliced into the comment replacement. -/
def detMatcher : Matcher := fun s =>
  match matchLit detLit1 s with
  | none => none
  | some r1 =>
    let cap1 := r1.takeWhile (fun c => ¬ c = '\x27')
    if cap1 = [] then none
    else
      match matchLit detLit2 (r1.drop cap1.length) with
      | none => none
      | some r2 =>
        let cap2 := r2.takeWhile (fun c => ¬ c = ';')
        if cap2 = [] then none
        else
          match matchLit detLit3 (r2.drop cap2.length) with
          | none => none
          | some rest => some (detRepl1 ++ cap1 ++ detRepl2 ++ cap2 ++ detRepl3, rest)

/-- Whether the first character of the text is a decimal digit. -/
def headIsDigit : List Char → Bool
  | d :: _ => d.isDigit
  | [] => false

/-- Expansion of an re.sub replacement template with respect to the
description-getter pattern, whose single capture group is the whole anchor
literal.  A doubled backslash yields a backslash; a backslash followed by the
digit 1 (and no further digit) yields the group, i.e. the anchor text; any
other escape is rejected, as the regex engine rejects the escapes that can
actually occur in the entity parameters (multi-digit or out-of-range group
references, backslash-letter escapes). -/
def expandTemplate (anchor : List Char) : List Char → Option (List Char)
  | [] => some []
  | c :: rest =>
    if c = '\\' then
      match rest with
      | [] => none
      | e :: rest2 =>
        if e = '\\' then (expandTemplate anchor rest2).map (fun t => '\\' :: t)
        else if e = '1' ∧ headIsDigit rest2 = false then
          (expandTemplate anchor rest2).map (fun t => anchor ++ t)
        else none
    else (expandTemplate anchor rest).map (fun t => c :: t)

/-- True when the text holds no backslash, so that interpolating it into an
re.sub replacement template leaves it unchanged. -/
def noBackslash (s : List Char) : Bool := s.all (fun c => ¬ c = '\\')

/-- Rule 1: strip the translation_result import. -/
def ruleImport1 (s : List Char) : List Char := subAll (litRule impLit1 []) s

/-- Rule 2: strip the exceptions import. -/
def ruleImport2 (s : List Char) : List Char := subAll (litRule impLit2 []) s

/-- Rule 3: replace the name/priority anchor with the expanded getter block
(the replacement is the already-expanded template). -/
def ruleDescGetter (repl : List Char) (s : List Char) : List Char :=
  subAll (litRule anchorLit repl) s

/-- Rule 4: rewrite the canHandle signature. -/
def ruleCanHandle (s : List Char) : List Char := subAll (litRule canHandleLit canHandleRepl) s

/-- Rule 5: rewrite the process signature. -/
def ruleProcessSig (s : List Char) : List Char := subAll (litRule processLit processRepl) s

/-- Rule 6: replace the eager LayerDebugInfo creation by a timestamp capture. -/
def ruleDbgInit (s : List Char) : List Char := subAll dbgMatcher s

/-- Rule 7: change the empty-string fallback of currentText to the text
parameter. -/
def ruleCurText (s : List Char) : List Char := subAll (litRule curTextLit curTextRepl) s

/-- Rule 8: rewrite old-shape result-helper calls. -/
def ruleCallFix (s : List Char) : List Char := subAll callMatcher s

/-- Rule 9: comment out details-mutations. -/
def ruleDetails (s : List Char) : List Char := subAll detMatcher s

/-! ### The block-substitution step -/

/-- Try the block-search pattern at the start of the text: the literal
signature head, a lazy scan to the first `) \x7b`, then a lazy scan to the
first `\x7d`.  Returns the whole matched span. -/
def blockMatchAt (s : List Char) : Option (List Char) :=
  (matchLit blockLit s).bind (fun r1 =>
    (splitFirst blockMid r1).bind (fun ab1 =>
      (splitFirst blockEnd ab1.2).map (fun ab2 =>
        blockLit ++ ab1.1 ++ blockMid ++ ab2.1 ++ blockEnd)))

/-- re.search for the block pattern: the match at the leftmost start position
where the whole pattern succeeds. -/
def blockSearch : List Char → Option (List Char)
  | [] => none
  | c :: cs =>
    match blockMatchAt (c :: cs) with
    | some span => some span
    | none => blockSearch cs

/-- The block substitution step: if the search finds a span, every occurrence
of that exact span text is replaced by the new method body (str.replace);
otherwise the text is returned unchanged. -/
def blockStep (s : List Char) : List Char :=
  match blockSearch s with
  | none => s
  | some span => subAll (litRule span newBlock) s

/-! ### The whole per-file transformation and the driver -/

/-- All pattern rules in source order.  The description-getter replacement
template is expanded first (interpolating the entity description and priority
label); a template the regex engine rejects aborts the whole transformation,
which is the exception Python raises at that re.sub call. -/
def fixRules (d p : List Char) (s : List Char) : Option (List Char) :=
  (expandTemplate anchorLit (tmpl d p)).map (fun repl =>
    ruleDetails (ruleCallFix (ruleCurText (ruleDbgInit (ruleProcessSig (ruleCanHandle
      (ruleDescGetter repl (ruleImport2 (ruleImport1 s)))))))))

/-- The full in-memory transformation of one file: all pattern rules, then the
block substitution.  The entity name parameter is accepted but, as in the
source, never used by any rule. -/
def fixContent (nm d p : List Char) (s : List Char) : Option (List Char) :=
  (fixRules d p s).map blockStep

/-- The driver for one entity, as a transition on a filesystem modelled as a
map from paths to contents.  It returns a success flag, the filesystem after
the run, and the list of writes performed.  Reading happens first; the
transformation is pure; the single write happens last, so a failure during
reading or transformation leaves the filesystem untouched. -/
def runFix (fs : Nat → Option (List Char)) (path : Nat) (nm d p : List Char) :
    Option Unit × (Nat → Option (List Char)) × List (Nat × List Char) :=
  match fs path with
  | none => (none, fs, [])
  | some content =>
    match fixContent nm d p content with
    | none => (none, fs, [])
    | some out => (some (), fun q => if q = path then some out else fs q, [(path, out)])

/-! ### Scan lemmas -/

theorem subAllF_congr (m : Matcher) : ∀ (f g : Nat) (s : List Char),
    s.length ≤ f → s.length ≤ g → subAllF m f s = subAllF m g s := by
  intro f
  induction f with
  | zero =>
    intro g s hf _
    have hnil : s = [] := List.eq_nil_of_length_eq_zero (Nat.le_zero.mp hf)
    subst hnil
    cases g <;> simp [subAllF]
  | succ f ih =>
    intro g s hf hg
    cases s with
    | nil => cases g <;> simp [subAllF]
    | cons c cs =>
      cases g with
      | zero => simp at hg
      | succ g' =>
        simp only [List.length_cons] at hf hg
        simp only [subAllF]
        cases hm : m (c :: cs) with
        | none => rw [ih g' cs (by omega) (by omega)]
        | some pr =>
          obtain ⟨r, rest⟩ := pr
          have hx : (if rest.length ≤ cs.length then rest else cs).length ≤ cs.length := by
            split <;> omega
          show r ++ subAllF m f (if rest.length ≤ cs.length then rest else cs) =
            r ++ subAllF m g' (if rest.length ≤ cs.length then rest else cs)
          rw [ih g' _ (by omega) (by omega)]

theorem subAll_nil (m : Matcher) : subAll m [] = [] := by
  simp [subAll, subAllF]

theorem subAll_cons_none {m : Matcher} {c : Char} {cs : List Char} (h : m (c :: cs) = none) :
    subAll m (c :: cs) = c :: subAll m cs := by
  simp [subAll, subAllF, h]

theorem subAll_some {m : Matcher} {s r rest : List Char} (h : m s = some (r, rest))
    (hlen : rest.length + 1 ≤ s.length) : subAll m s = r ++ subAll m rest := by
  cases s with
  | nil => simp at hlen
  | cons c cs =>
    have hle : rest.length ≤ cs.length := by
      simp only [List.length_cons] at hlen
      omega
    show subAllF m (c :: cs).length (c :: cs) = r ++ subAll m rest
    simp only [List.length_cons, subAllF, h, if_pos hle]
    rw [subAllF_congr m cs.length rest.length rest hle le_rfl]
    rfl

theorem subAll_id_of_no_match {m : Matcher} : ∀ {s : List Char},
    hasMatch m s = false → subAll m s = s := by
  intro s
  induction s with
  | nil => intro _; simp [subAll, subAllF]
  | cons c cs ih =>
    intro h
    simp only [hasMatch, Bool.or_eq_false_iff] at h
    obtain ⟨h1, h2⟩ := h
    rw [subAll_cons_none (Option.not_isSome_iff_eq_none.mp (by simp [h1])), ih h2]

theorem matchLit_self : ∀ (l s : List Char), matchLit l (l ++ s) = some s := by
  intro l
  induction l with
  | nil => intro s; simp [matchLit]
  | cons x xs ih => intro s; simp [matchLit, ih]

theorem matchLit_eq_some : ∀ {l s r : List Char}, matchLit l s = some r → s = l ++ r := by
  intro l
  induction l with
  | nil => intro s r h; simp [matchLit] at h; simp [h]
  | cons x xs ih =>
    intro s r h
    cases s with
    | nil => simp [matchLit] at h
    | cons c cs =>
      simp only [matchLit] at h
      split at h
      · next heq => simp [heq, ih h]
      · exact absurd h (by simp)

theorem takeWhile_append_of_all {p : Char → Bool} : ∀ {m : List Char} {q : Char} {t : List Char},
    (∀ c ∈ m, p c = true) → p q = false → (m ++ q :: t).takeWhile p = m := by
  intro m
  induction m with
  | nil => intro q t _ hq; simp [List.takeWhile, hq]
  | cons x xs ih =>
    intro q t hall hq
    have hx : p x = true := hall x (by simp)
    simp [List.takeWhile, hx, ih (fun c hc => hall c (by simp [hc])) hq]

/-! ### Literal-rule lemmas -/

theorem litRule_eq_none {lit repl s : List Char} (h : ¬ (lit ≠ [] ∧ lit <+: s)) :
    litRule lit repl s = none := by
  simp only [litRule, if_neg h]

theorem litRule_eq_some {lit repl s : List Char} (hne : lit ≠ []) (hp : lit <+: s) :
    litRule lit repl s = some (repl, s.drop lit.length) := by
  simp only [litRule, if_pos (And.intro hne hp)]

theorem subAll_lit_match {lit repl s : List Char} (hne : lit ≠ []) (hp : lit <+: s) :
    subAll (litRule lit repl) s = repl ++ subAll (litRule lit repl) (s.drop lit.length) := by
  apply subAll_some (litRule_eq_some hne hp)
  have h1 : 1 ≤ lit.length := by
    cases lit with
    | nil => exact absurd rfl hne
    | cons _ _ => simp
  have h2 : lit.length ≤ s.length := hp.length_le
  simp only [List.length_drop]
  omega

theorem subAll_lit_nomatch {lit repl : List Char} {c : Char} {cs : List Char}
    (h : ¬ lit <+: c :: cs) :
    subAll (litRule lit repl) (c :: cs) = c :: subAll (litRule lit repl) cs :=
  subAll_cons_none (litRule_eq_none (fun hc => h hc.2))

theorem subAll_lit_id_of_absent {lit repl : List Char} : ∀ {s : List Char},
    ¬ lit <:+: s → subAll (litRule lit repl) s = s := by
  intro s
  induction s with
  | nil => intro _; simp [subAll, subAllF]
  | cons c cs ih =>
    intro h
    rw [List.infix_cons_iff] at h
    push_neg at h
    rw [subAll_lit_nomatch h.1, ih h.2]

theorem subAll_lit_fires {lit repl : List Char} (hne : lit ≠ []) : ∀ {s : List Char},
    lit <:+: s → repl <:+: subAll (litRule lit repl) s := by
  intro s
  induction s with
  | nil =>
    intro h
    exact absurd (List.eq_nil_of_infix_nil h) hne
  | cons c cs ih =>
    intro h
    by_cases hp : lit <+: c :: cs
    · rw [subAll_lit_match hne hp]
      exact (repl.prefix_append _).isInfix
    · rw [subAll_lit_nomatch hp]
      rw [List.infix_cons_iff] at h
      exact List.infix_cons (ih (h.resolve_left hp))

/-! ### Append surgery for prefixes and infixes -/

theorem prefix_of_append_le {t a b : List Char} (h : t <+: a ++ b)
    (hl : t.length ≤ a.length) : t <+: a := by
  have ht : t = (a ++ b).take t.length := List.prefix_iff_eq_take.mp h
  rw [List.take_append_of_le_length hl] at ht
  rw [ht]
  exact List.take_prefix _ _

theorem prefix_append_split {t a b : List Char} (h : t <+: a ++ b)
    (hl : a.length ≤ t.length) : t.take a.length = a ∧ t.drop a.length <+: b := by
  obtain ⟨r, hr⟩ := h
  have htake : t.take a.length = a := by
    have h1 : (t ++ r).take a.length = t.take a.length :=
      List.take_append_of_le_length hl
    rw [hr, List.take_left] at h1
    exact h1.symm
  refine ⟨htake, ?_⟩
  have hsplit : t = a ++ t.drop a.length := by
    conv_lhs => rw [← List.take_append_drop a.length t]
    rw [htake]
  rw [hsplit, List.append_assoc] at hr
  exact ⟨r, List.append_cancel_left hr⟩

theorem infix_append_tri {t : List Char} : ∀ {a b : List Char}, t <:+: a ++ b →
    t <:+: a ∨ t <:+: b ∨
      ∃ k, 0 < k ∧ k < t.length ∧ t.take k <:+ a ∧ t.drop k <+: b := by
  intro a
  induction a with
  | nil => intro b h; simp at h; exact Or.inr (Or.inl h)
  | cons c a' ih =>
    intro b h
    rw [List.cons_append, List.infix_cons_iff] at h
    rcases h with hp | hi
    · rcases List.prefix_cons_iff.mp hp with rfl | ⟨t', rfl, hp'⟩
      · exact Or.inl List.nil_infix
      · by_cases hlen : t'.length ≤ a'.length
        · have ht' : t' <+: a' := prefix_of_append_le hp' hlen
          exact Or.inl (List.cons_prefix_cons.mpr ⟨rfl, ht'⟩).isInfix
        · obtain ⟨htake, hdrop⟩ := prefix_append_split hp' (by omega)
          refine Or.inr (Or.inr ⟨a'.length + 1, by omega,
            by simp only [List.length_cons]; omega, ?_, ?_⟩)
          · have h2 : (c :: t').take (a'.length + 1) = c :: a' := by
              simp [List.take_succ_cons, htake]
            rw [h2]
          · simpa [List.drop_succ_cons] using hdrop
    · rcases ih hi with h' | h' | ⟨k, hk0, hkl, hsuf, hpre⟩
      · exact Or.inl (List.infix_cons h')
      · exact Or.inr (Or.inl h')
      · exact Or.inr (Or.inr ⟨k, hk0, hkl, hsuf.trans (List.suffix_cons c a'), hpre⟩)

/-! ### A literal rule never reintroduces its own pattern (under boundary
conditions on the literal and its replacement) -/

theorem subAll_lit_keep (lit repl : List Char) (hne : lit ≠ [])
    (hlen : lit.length ≤ repl.length)
    (hB : ∀ t, t <:+ lit → t ≠ [] → t ≠ lit → ¬ t <+: repl) :
    ∀ (n : Nat) (s : List Char), s.length ≤ n → ∀ t, t <:+ lit → t ≠ lit →
      t <+: subAll (litRule lit repl) s → t <+: s := by
  intro n
  induction n with
  | zero =>
    intro s hs t _ _ hpre
    have hnil : s = [] := List.eq_nil_of_length_eq_zero (Nat.le_zero.mp hs)
    subst hnil
    rw [subAll_nil] at hpre
    exact hpre
  | succ n ih =>
    intro s hs t htl htne hpre
    cases s with
    | nil =>
      rw [subAll_nil] at hpre
      exact hpre
    | cons c cs =>
      by_cases hp : lit <+: c :: cs
      · rw [subAll_lit_match hne hp] at hpre
        rcases eq_or_ne t [] with rfl | htne0
        · exact List.nil_prefix
        · have htlt : t.length < lit.length := by
            have hle := htl.length_le
            rcases Nat.lt_or_ge t.length lit.length with hlt | hge
            · exact hlt
            · exact absurd (htl.eq_of_length (Nat.le_antisymm hle hge)) htne
          have hrep : t <+: repl := prefix_of_append_le hpre (by omega)
          exact absurd hrep (hB t htl htne0 htne)
      · rw [subAll_lit_nomatch hp] at hpre
        cases t with
        | nil => exact List.nil_prefix
        | cons x t' =>
          rw [List.cons_prefix_cons] at hpre
          obtain ⟨rfl, hpre'⟩ := hpre
          have ht'l : t' <:+ lit := (List.suffix_cons x t').trans htl
          have hlt : t'.length < lit.length := by
            have := htl.length_le
            simp only [List.length_cons] at this
            omega
          have ht'ne : t' ≠ lit := by
            intro hh
            rw [hh] at hlt
            exact absurd hlt (lt_irrefl _)
          have hcs : cs.length ≤ n := by
            simp only [List.length_cons] at hs
            omega
          exact List.cons_prefix_cons.mpr ⟨rfl, ih cs hcs t' ht'l ht'ne hpre'⟩

theorem subAll_lit_clean (lit repl : List Char) (hne : lit ≠ [])
    (hlen : lit.length ≤ repl.length)
    (h1 : ¬ lit <:+: repl)
    (hA : ∀ t, t <+: lit → t ≠ [] → t ≠ lit → ¬ t <:+ repl)
    (hB : ∀ t, t <:+ lit → t ≠ [] → t ≠ lit → ¬ t <+: repl) :
    ∀ (n : Nat) (s : List Char), s.length ≤ n →
      ¬ lit <:+: subAll (litRule lit repl) s := by
  intro n
  induction n with
  | zero =>
    intro s hs h
    have hnil : s = [] := List.eq_nil_of_length_eq_zero (Nat.le_zero.mp hs)
    subst hnil
    rw [subAll_nil] at h
    exact hne (List.eq_nil_of_infix_nil h)
  | succ n ih =>
    intro s hs h
    cases s with
    | nil =>
      rw [subAll_nil] at h
      exact hne (List.eq_nil_of_infix_nil h)
    | cons c cs =>
      have hlit1 : 1 ≤ lit.length := by
        cases lit with
        | nil => exact absurd rfl hne
        | cons _ _ => simp
      have hcs : cs.length ≤ n := by
        simp only [List.length_cons] at hs
        omega
      by_cases hp : lit <+: c :: cs
      · rw [subAll_lit_match hne hp] at h
        rcases infix_append_tri h with h' | h' | ⟨k, hk0, hkl, hsuf, hpre⟩
        · exact h1 h'
        · refine ih ((c :: cs).drop lit.length) ?_ h'
          simp only [List.length_drop, List.length_cons]
          omega
        · have hkd : (lit.take k).length = k :=
            List.length_take_of_le (by omega)
          have hkne : lit.take k ≠ [] := by
            intro hh
            rw [hh] at hkd
            simp at hkd
            omega
          have hknel : lit.take k ≠ lit := by
            intro hh
            rw [hh] at hkd
            omega
          exact hA _ (List.take_prefix k lit) hkne hknel hsuf
      · rw [subAll_lit_nomatch hp] at h
        rw [List.infix_cons_iff] at h
        rcases h with h | h
        · rcases List.prefix_cons_iff.mp h with hnil | ⟨lit', hlit, hpre'⟩
          · exact hne hnil
          · have hl' : lit' <:+ lit := by
              rw [hlit]
              exact List.suffix_cons c lit'
            have hne' : lit' ≠ lit := by
              intro hh
              rw [hlit] at hh
              have := congrArg List.length hh
              simp at this
            have hkeep := subAll_lit_keep lit repl hne hlen hB cs.length cs
              le_rfl lit' hl' hne' hpre'
            refine hp ?_
            rw [hlit]
            exact List.cons_prefix_cons.mpr ⟨rfl, hkeep⟩
        · exact ih cs hcs h

/-! ### Template expansion and segment lemmas -/

theorem expandTemplate_of_noBackslash {a : List Char} : ∀ {t : List Char},
    noBackslash t = true → expandTemplate a t = some t := by
  intro t
  induction t with
  | nil => intro _; simp [expandTemplate]
  | cons c cs ih =>
    intro h
    simp only [noBackslash, List.all_cons, Bool.and_eq_true] at h
    obtain ⟨hc, hcs⟩ := h
    have hco : ¬ c = '\\' := by simpa using hc
    have ihh := ih (by simpa [noBackslash] using hcs)
    rw [expandTemplate.eq_def]
    simp [hco, ihh]

theorem noBackslash_append {a b : List Char} :
    noBackslash (a ++ b) = (noBackslash a && noBackslash b) := by
  simp [noBackslash, List.all_append]

/-- The description part of the inserted getter block, as the spec's parameter
instantiation property names it: the description between single quotes. -/
def descSeg (d : List Char) : List Char :=
  ("String get description => \x27").toList ++ d ++ ("\x27;").toList

/-- The priority part of the inserted getter block: the label after the
LayerPriority dot. -/
def prioSeg (p : List Char) : List Char :=
  ("LayerPriority get priority => LayerPriority.").toList ++ p ++ (";").toList

theorem descSeg_infix_tmpl (d p : List Char) : descSeg d <:+: tmpl d p := by
  refine ⟨("@override\n  String get name => layerName;\n\n  @override\n  ").toList,
    ("\n\n  @override\n  LayerPriority get priority => LayerPriority.").toList
      ++ p ++ tmplPost, ?_⟩
  have h1 : tmplPre = ("@override\n  String get name => layerName;\n\n  @override\n  ").toList
      ++ ("String get description => \x27").toList := by decide
  have h2 : tmplMid = ("\x27;").toList
      ++ ("\n\n  @override\n  LayerPriority get priority => LayerPriority.").toList := by decide
  simp [tmpl, descSeg, h1, h2]

theorem prioSeg_infix_tmpl (d p : List Char) : prioSeg p <:+: tmpl d p := by
  refine ⟨tmplPre ++ d ++ ("\x27;\n\n  @override\n  ").toList, [], ?_⟩
  have h3 : tmplMid = ("\x27;\n\n  @override\n  ").toList
      ++ ("LayerPriority get priority => LayerPriority.").toList := by decide
  have h4 : tmplPost = (";").toList := by decide
  simp [tmpl, prioSeg, h3, h4]

/-! ### Stepping lemmas for the capture matchers and the block search -/

theorem matchLit_ne_head {l s : List Char} {x c : Char} (hl : l.head? = some x)
    (hs : s.head? = some c) (h : ¬ c = x) : matchLit l s = none := by
  cases l with
  | nil => simp at hl
  | cons y ys =>
    cases s with
    | nil => simp at hs
    | cons z zs =>
      simp only [List.head?_cons, Option.some.injEq] at hl hs
      subst hl
      subst hs
      simp [matchLit, h]

theorem callMatcher_cons_none {c : Char} {cs : List Char} (h : ¬ c = 'r') :
    callMatcher (c :: cs) = none := by
  unfold callMatcher
  rw [matchLit_ne_head (by decide) (List.head?_cons) h]
  rfl

theorem callMatcher_at_call {msg post : List Char} (hne : msg ≠ [])
    (hq : ∀ c ∈ msg, ¬ c = '\x27') :
    callMatcher (callLit1 ++ (msg ++ (callLit2 ++ post))) =
      some (callRepl1 ++ msg ++ callRepl2, post) := by
  unfold callMatcher
  rw [matchLit_self]
  have hl2 : callLit2 = '\x27' :: (')' :: (';' :: [])) := by decide
  have htw : (msg ++ (callLit2 ++ post)).takeWhile (fun c => ¬ c = '\x27') = msg := by
    rw [hl2]
    simp only [List.cons_append]
    exact takeWhile_append_of_all (fun c hc => by simp [hq c hc]) (by decide)
  simp only [Option.some_bind, htw, if_neg hne, List.drop_left]
  rw [matchLit_self]
  rfl

theorem splitFirst_cons_pos {pat : List Char} {c : Char} {cs : List Char}
    (h : pat <+: c :: cs) :
    splitFirst pat (c :: cs) = some ([], (c :: cs).drop pat.length) := by
  simp [splitFirst, h]

theorem splitFirst_cons_neg {pat : List Char} {c : Char} {cs : List Char}
    (h : ¬ pat <+: c :: cs) :
    splitFirst pat (c :: cs) = (splitFirst pat cs).map (fun ab => (c :: ab.1, ab.2)) := by
  simp [splitFirst, h]

theorem blockSearch_cons_some {c : Char} {cs span : List Char}
    (h : blockMatchAt (c :: cs) = some span) : blockSearch (c :: cs) = some span := by
  simp [blockSearch, h]

/-! ### Concrete entities and texts used by the claim theorems -/

/-- An entity name, as in the spec's parameter-instantiation property. -/
def nameFoo : List Char := ("Foo").toList

/-- An entity description without special characters. -/
def descBar : List Char := ("Bar").toList

/-- An entity priority label. -/
def prioBaz : List Char := ("baz").toList

/-- A result-builder method whose body holds a nested delimited block (a
conditional), the configuration the block-substitution property is about. -/
def c1Text : List Char :=
  ("LayerResult _createResult(\n    bool success,\n  ) \x7b\n    if (success) \x7b return a; \x7d\n    return b;\n  \x7d\n").toList

/-- The span the lazy search actually matches inside `c1Text`: it ends at the
first closing brace, the one of the nested conditional. -/
def c1Span : List Char :=
  ("LayerResult _createResult(\n    bool success,\n  ) \x7b\n    if (success) \x7b return a; \x7d").toList

/-- The tail of the method body of `c1Text` after the first closing brace. -/
def c1Tail : List Char := ("\n    return b;\n  \x7d\n").toList

/-- A pre-migration result-builder method without nested braces; the pipeline
turns a file consisting of it into exactly the new method body. -/
def c2Seed : List Char :=
  ("LayerResult _createResult(\n    bool success,\n  ) \x7b\n    return x;\n  \x7d").toList

/-- A text holding an old-shape result-helper call passing `true`. -/
def c3Text : List Char :=
  ("A\n  return _createResult(true, context, stopwatch, debugInfo, \x27ok\x27);\n").toList

/-- The old-shape call with flag `true` inside `c3Text`. -/
def oldTrueCall : List Char :=
  ("return _createResult(true, context, stopwatch, debugInfo, \x27ok\x27);").toList

/-- An old-shape result-helper call around an arbitrary message. -/
def oldCall (msg : List Char) : List Char := callLit1 ++ msg ++ callLit2

/-- The corresponding rewritten call. -/
def newCall (msg : List Char) : List Char := callRepl1 ++ msg ++ callRepl2

/-- Context before a call in the call-rewrite theorem. -/
def callCtxPre : List Char := ("A\n").toList

/-- Context after a call in the call-rewrite theorem. -/
def callCtxPost : List Char := ("\n").toList

/-- A text containing none of the patterns the tool looks for. -/
def c4Text : List Char := ("hello world\n").toList

/-- A minimal text the block-open matcher matches, with body `a`. -/
def dupSpan : List Char := ("LayerResult _createResult(x) \x7ba\x7d").toList

/-- Text after the first block in the duplicate-span theorems: a second
matcher match whose text differs from the first (body `b`). -/
def dupRest : List Char := (" LayerResult _createResult(x) \x7bb\x7d").toList

/-- Two identical matchable blocks separated by a space. -/
def dupText : List Char := dupSpan ++ (" ").toList ++ dupSpan

/-- A text on which the canHandle-rewrite witness is evaluated. -/
def c6Text : List Char := ("x bool canHandle(TranslationContext context) y").toList

/-- A description holding a backslash-digit group reference. -/
def c9Desc : List Char := ("a\\1b").toList

/-- A description holding a backslash escape the regex engine rejects. -/
def c9ErrDesc : List Char := ("q\\2w").toList

/-- What the tool actually inserts for `c9Desc`: the text around the backslash
with the whole anchor spliced in place of the group reference. -/
def c9Out : List Char :=
  tmplPre ++ ("a").toList ++ anchorLit ++ ("b").toList ++ tmplMid ++ prioBaz ++ tmplPost

/-- Content used by the unconditional-write witness. -/
def c10Text : List Char := ("lorem ipsum\n").toList

/-! ### Claim theorems -/

/-- Claim C1.  On a method body holding a nested delimited block, the block
substitution does not locate the true matching end: the lazy search stops at
the first closing brace (the end of the inner conditional, `c1Span`), so the
replacement substitutes only that prefix of the method and the dangling tail
of the body (`c1Tail`) survives after the inserted block. -/
theorem blockStep_truncates_at_first_close :
    blockSearch c1Text = some c1Span ∧ blockStep c1Text = newBlock ++ c1Tail :=
  ⟨by decide, by decide⟩

/-- Claim C2.  The pipeline output of a simple pre-migration file is the new
method body itself; on that already-migrated text the pattern rules make no
further change, but the whole pipeline does change it, because the block-open
matcher re-matches the migrated method and the lazy search truncates it at the
first inner closing brace. -/
theorem pipeline_not_idempotent_on_migrated :
    fixContent nameFoo descBar prioBaz c2Seed = some newBlock ∧
      fixRules descBar prioBaz newBlock = some newBlock ∧
      fixContent nameFoo descBar prioBaz newBlock ≠ some newBlock :=
  ⟨by decide, by decide, by decide⟩

/-- Claim C9.  A description holding a backslash-digit sequence is not
inserted verbatim: `\1` is expanded as a group reference (splicing the whole
anchor into the getter), and an invalid escape such as `\2` aborts the
transformation with an error. -/
theorem description_metachars_alter_output :
    fixContent nameFoo c9Desc prioBaz anchorLit = some c9Out ∧
      ¬ descSeg c9Desc <:+: c9Out ∧
      fixContent nameFoo c9ErrDesc prioBaz anchorLit = none :=
  ⟨by decide, by decide, by decide⟩

/-- Counterexample to claim C7 as stated: for the entity (Foo, Bar, baz) and a
text consisting of the anchor pair, the transformation succeeds but the
inserted block nowhere holds the supplied name Foo — the replacement template
references only the description and the priority label. -/
theorem inserted_block_lacks_entity_name :
    fixContent nameFoo descBar prioBaz anchorLit = some (tmpl descBar prioBaz) ∧
      ¬ nameFoo <:+: tmpl descBar prioBaz :=
  ⟨by decide, by decide⟩

/-- Counterexample to claim C3 as stated: an old 5-argument result-helper call
passing `true` is left unchanged by the whole transformation — the rewrite
pattern hard-codes the flag `false`. -/
theorem true_flag_call_left_unchanged :
    fixContent nameFoo descBar prioBaz c3Text = some c3Text ∧ oldTrueCall <:+: c3Text :=
  ⟨by decide, by decide⟩

/-- Counterexample to claim C5 as stated: when the matched span occurs twice,
str.replace substitutes both occurrences, so the later occurrence of the
matched text is not left unchanged. -/
theorem duplicate_span_also_replaced :
    blockStep dupText = newBlock ++ (" ").toList ++ newBlock := by
  have hne : dupSpan ≠ [] := by decide
  have hd : dupText = dupSpan ++ (' ' :: dupSpan) := by decide
  have hsearch : blockSearch dupText = some dupSpan := by decide
  unfold blockStep
  rw [hsearch, hd]
  show subAll (litRule dupSpan newBlock) (dupSpan ++ ' ' :: dupSpan) =
    newBlock ++ (" ").toList ++ newBlock
  rw [subAll_lit_match hne (List.prefix_append _ _), List.drop_left,
    subAll_lit_nomatch (by decide), subAll_lit_match hne List.prefix_rfl,
    List.drop_length, subAll_nil]
  have hsp : (" ").toList = ' ' :: [] := by decide
  rw [hsp]
  simp

/-- Claim C3, amended.  A result-helper call in the exact old shape with flag
`false` and a nonempty single-quoted apostrophe-free message is rewritten to
the new shape (text, false, stopwatch, startTime, message); calls passing
`true` are not matched by the rule (see the counterexample). -/
theorem false_flag_call_rewritten (msg : List Char) (hne : msg ≠ [])
    (hq : ∀ c ∈ msg, ¬ c = '\x27') :
    ruleCallFix (callCtxPre ++ oldCall msg ++ callCtxPost) =
      callCtxPre ++ newCall msg ++ callCtxPost := by
  have hpre : callCtxPre = 'A' :: '\n' :: [] := by decide
  have hpost : callCtxPost = '\n' :: [] := by decide
  have hlen1 : 0 < callLit1.length := by decide
  have hlen2 : callLit2.length = 3 := by decide
  unfold ruleCallFix oldCall newCall
  rw [hpre, hpost]
  simp only [List.cons_append, List.nil_append, List.append_assoc]
  rw [subAll_cons_none (callMatcher_cons_none (by decide)),
    subAll_cons_none (callMatcher_cons_none (by decide)),
    subAll_some (callMatcher_at_call hne hq)
      (by simp only [List.length_append, List.length_cons, List.length_nil]; omega),
    subAll_cons_none (callMatcher_cons_none (by decide)), subAll_nil]
  simp only [List.append_assoc]

/-- Witness for the amended claim C3 at the message `ok`. -/
theorem false_flag_call_rewritten_witness :
    ruleCallFix (callCtxPre ++ oldCall ("ok").toList ++ callCtxPost) =
      callCtxPre ++ newCall ("ok").toList ++ callCtxPost :=
  false_flag_call_rewritten ("ok").toList (by decide) (by decide)

/-- Claim C4.  On text in which no pattern of any rule occurs and the block
search finds nothing, and for entity parameters free of backslashes, the whole
transformation returns the input text unchanged. -/
theorem noop_when_no_anchor (nm d p s : List Char)
    (hd : noBackslash d = true) (hp2 : noBackslash p = true)
    (h1 : ¬ impLit1 <:+: s) (h2 : ¬ impLit2 <:+: s) (h3 : ¬ anchorLit <:+: s)
    (h4 : ¬ canHandleLit <:+: s) (h5 : ¬ processLit <:+: s)
    (h6 : hasMatch dbgMatcher s = false) (h7 : ¬ curTextLit <:+: s)
    (h8 : hasMatch callMatcher s = false) (h9 : hasMatch detMatcher s = false)
    (h10 : blockSearch s = none) :
    fixContent nm d p s = some s := by
  have hb1 : noBackslash tmplPre = true := by decide
  have hb2 : noBackslash tmplMid = true := by decide
  have hb3 : noBackslash tmplPost = true := by decide
  have hnb : noBackslash (tmpl d p) = true := by
    simp [tmpl, noBackslash_append, hb1, hb2, hb3, hd, hp2]
  unfold fixContent fixRules
  rw [expandTemplate_of_noBackslash hnb]
  unfold ruleImport1 ruleImport2 ruleDescGetter ruleCanHandle ruleProcessSig
    ruleDbgInit ruleCurText ruleCallFix ruleDetails
  simp only [Option.map_some']
  rw [subAll_lit_id_of_absent h1, subAll_lit_id_of_absent h2,
    subAll_lit_id_of_absent h3, subAll_lit_id_of_absent h4,
    subAll_lit_id_of_absent h5, subAll_id_of_no_match h6,
    subAll_lit_id_of_absent h7, subAll_id_of_no_match h8,
    subAll_id_of_no_match h9]
  simp [blockStep, h10]

/-- Witness for claim C4 on a text with none of the anchors. -/
theorem noop_when_no_anchor_witness :
    fixContent nameFoo descBar prioBaz c4Text = some c4Text :=
  noop_when_no_anchor nameFoo descBar prioBaz c4Text (by decide) (by decide)
    (by decide) (by decide) (by decide) (by decide) (by decide) (by decide)
    (by decide) (by decide) (by decide) (by decide)

/-- Claim C5, amended.  The search processes only the first matcher match (here
at the start of the text), but the substitution then replaces every occurrence
of that exact matched span: any continuation of the text in which the first
span's text does not occur again is preserved unchanged after the new block,
while a duplicate of the span would be replaced as well (see the
counterexample). -/
theorem first_span_replaced_everywhere (rest : List Char)
    (h : ¬ dupSpan <:+: rest) :
    blockStep (dupSpan ++ rest) = newBlock ++ rest := by
  have hne : dupSpan ≠ [] := by decide
  have hsp : dupSpan = blockLit ++ ('x' :: ')' :: ' ' :: '\x7b' :: 'a' :: '\x7d' :: []) := by
    decide
  have hbm : blockMid = ')' :: ' ' :: '\x7b' :: [] := by decide
  have hbe : blockEnd = '\x7d' :: [] := by decide
  have hneg1 : ¬ blockMid <+: 'x' :: ')' :: ' ' :: '\x7b' :: 'a' :: '\x7d' :: rest := by
    rw [hbm]
    intro hcp
    rw [List.cons_prefix_cons] at hcp
    exact absurd hcp.1 (by decide)
  have hpos1 : blockMid <+: ')' :: ' ' :: '\x7b' :: 'a' :: '\x7d' :: rest := by
    rw [hbm]
    simp [List.cons_prefix_cons]
  have hsf1 : splitFirst blockMid ('x' :: ')' :: ' ' :: '\x7b' :: 'a' :: '\x7d' :: rest) =
      some ('x' :: [], 'a' :: '\x7d' :: rest) := by
    rw [splitFirst_cons_neg hneg1, splitFirst_cons_pos hpos1, hbm]
    simp
  have hneg2 : ¬ blockEnd <+: 'a' :: '\x7d' :: rest := by
    rw [hbe]
    intro hcp
    rw [List.cons_prefix_cons] at hcp
    exact absurd hcp.1 (by decide)
  have hpos2 : blockEnd <+: '\x7d' :: rest := by
    rw [hbe]
    simp [List.cons_prefix_cons]
  have hsf2 : splitFirst blockEnd ('a' :: '\x7d' :: rest) = some ('a' :: [], rest) := by
    rw [splitFirst_cons_neg hneg2, splitFirst_cons_pos hpos2, hbe]
    simp
  have hmatch : blockMatchAt (dupSpan ++ rest) = some dupSpan := by
    conv_lhs => rw [hsp, List.append_assoc]
    unfold blockMatchAt
    rw [matchLit_self]
    simp only [List.cons_append, List.nil_append, Option.some_bind]
    rw [hsf1]
    simp only [Option.some_bind]
    rw [hsf2]
    simp only [Option.map_some']
    rw [hsp, hbm, hbe]
    simp
  have hsne : dupSpan ++ rest ≠ [] := by
    intro hh
    exact hne (List.append_eq_nil.mp hh).1
  have hsearch : blockSearch (dupSpan ++ rest) = some dupSpan := by
    cases he : dupSpan ++ rest with
    | nil => exact absurd he hsne
    | cons c cs =>
      rw [he] at hmatch
      simp [blockSearch, hmatch]
  unfold blockStep
  rw [hsearch]
  show subAll (litRule dupSpan newBlock) (dupSpan ++ rest) = newBlock ++ rest
  rw [subAll_lit_match hne (List.prefix_append _ _), List.drop_left,
    subAll_lit_id_of_absent h]

/-- Witness for the amended claim C5: a later matcher match with a different
body is left unchanged while the first is replaced. -/
theorem first_span_replaced_everywhere_witness :
    ¬ dupSpan <:+: dupRest ∧ blockStep (dupSpan ++ dupRest) = newBlock ++ dupRest :=
  ⟨by decide, first_span_replaced_everywhere dupRest (by decide)⟩

/-- Claim C6.  After the canHandle signature rule runs, no occurrence of the
old two-parameter signature remains in the output, and if the old signature
occurred in the input then the new three-parameter signature occurs in the
output. -/
theorem canHandle_rewrite_no_old_left (s : List Char) :
    ¬ canHandleLit <:+: ruleCanHandle s ∧
      (canHandleLit <:+: s → canHandleRepl <:+: ruleCanHandle s) := by
  constructor
  · have hA : ∀ t, t <+: canHandleLit → t ≠ [] → t ≠ canHandleLit →
        ¬ t <:+ canHandleRepl := by
      have H : ∀ t ∈ canHandleLit.inits,
          t = [] ∨ t = canHandleLit ∨ ¬ t <:+ canHandleRepl := by decide
      intro t ht h2 h3
      rcases H t ((List.mem_inits t canHandleLit).mpr ht) with hh | hh | hh
      · exact absurd hh h2
      · exact absurd hh h3
      · exact hh
    have hB : ∀ t, t <:+ canHandleLit → t ≠ [] → t ≠ canHandleLit →
        ¬ t <+: canHandleRepl := by
      have H : ∀ t ∈ canHandleLit.tails,
          t = [] ∨ t = canHandleLit ∨ ¬ t <+: canHandleRepl := by decide
      intro t ht h2 h3
      rcases H t ((List.mem_tails t canHandleLit).mpr ht) with hh | hh | hh
      · exact absurd hh h2
      · exact absurd hh h3
      · exact hh
    exact subAll_lit_clean canHandleLit canHandleRepl (by decide) (by decide)
      (by decide) hA hB s.length s le_rfl
  · intro h
    exact subAll_lit_fires (by decide) h

/-- Witness for claim C6 on a text holding one old signature. -/
theorem canHandle_rewrite_no_old_left_witness :
    canHandleLit <:+: c6Text ∧ ¬ canHandleLit <:+: ruleCanHandle c6Text ∧
      canHandleRepl <:+: ruleCanHandle c6Text :=
  ⟨by decide, (canHandle_rewrite_no_old_left c6Text).1,
    (canHandle_rewrite_no_old_left c6Text).2 (by decide)⟩

/-- Claim C7, amended.  For every description and priority label without
backslashes and every text containing the anchor pair, the replacement template
is inserted as written: the block the rule inserts carries the description
between single quotes and the priority label after the LayerPriority dot,
apostrophes included, verbatim.  The supplied entity name is not part of the
inserted block (see the counterexample), and backslash descriptions are
expanded as template escapes (claim C9). -/
theorem inserted_block_carries_desc_and_prio (d p s : List Char)
    (hd : noBackslash d = true) (hp2 : noBackslash p = true)
    (ha : anchorLit <:+: s) :
    expandTemplate anchorLit (tmpl d p) = some (tmpl d p) ∧
      descSeg d <:+: ruleDescGetter (tmpl d p) s ∧
      prioSeg p <:+: ruleDescGetter (tmpl d p) s := by
  have hb1 : noBackslash tmplPre = true := by decide
  have hb2 : noBackslash tmplMid = true := by decide
  have hb3 : noBackslash tmplPost = true := by decide
  have hnb : noBackslash (tmpl d p) = true := by
    simp [tmpl, noBackslash_append, hb1, hb2, hb3, hd, hp2]
  have hfire : tmpl d p <:+: ruleDescGetter (tmpl d p) s := by
    unfold ruleDescGetter
    exact subAll_lit_fires (by decide) ha
  exact ⟨expandTemplate_of_noBackslash hnb,
    (descSeg_infix_tmpl d p).trans hfire, (prioSeg_infix_tmpl d p).trans hfire⟩

/-- Witness for the amended claim C7 at (Bar, baz) on the anchor text. -/
theorem inserted_block_carries_desc_and_prio_witness :
    descSeg descBar <:+: ruleDescGetter (tmpl descBar prioBaz) anchorLit ∧
      prioSeg prioBaz <:+: ruleDescGetter (tmpl descBar prioBaz) anchorLit :=
  ⟨(inserted_block_carries_desc_and_prio descBar prioBaz anchorLit
      (by decide) (by decide) (by decide)).2.1,
    (inserted_block_carries_desc_and_prio descBar prioBaz anchorLit
      (by decide) (by decide) (by decide)).2.2⟩

/-- Claim C8.  If the run of the driver on one entity fails — the file cannot
be read, or the transformation aborts — the filesystem is unchanged: the only
write happens after the whole in-memory transformation succeeds. -/
theorem failed_run_leaves_files_untouched (fs : Nat → Option (List Char))
    (path : Nat) (nm d p : List Char) (h : (runFix fs path nm d p).1 = none) :
    (runFix fs path nm d p).2.1 = fs := by
  unfold runFix at h ⊢
  cases hfs : fs path with
  | none => rfl
  | some content =>
    rw [hfs] at h
    show (match fixContent nm d p content with
      | none => (none, fs, [])
      | some out =>
        (some (), fun q => if q = path then some out else fs q, [(path, out)])).2.1 = fs
    cases hfc : fixContent nm d p content with
    | none => rfl
    | some out => simp [hfc] at h

/-- Witness for claim C8: a missing file aborts the run with the filesystem
untouched. -/
theorem failed_run_leaves_files_untouched_witness :
    (runFix (fun _ => none) 0 [] [] []).2.1 = (fun _ => none) :=
  failed_run_leaves_files_untouched (fun _ => none) 0 [] [] [] rfl

/-- Claim C10.  Whenever read and transformation succeed, the driver writes the
target file, even when the transformed content is byte-identical to what was
read. -/
theorem write_happens_even_without_change (fs : Nat → Option (List Char))
    (path : Nat) (nm d p c : List Char) (hread : fs path = some c)
    (hfix : fixContent nm d p c = some c) :
    (runFix fs path nm d p).2.2 = [(path, c)] := by
  unfold runFix
  rw [hread]
  show (match fixContent nm d p c with
    | none => (none, fs, [])
    | some out =>
      (some (), fun q => if q = path then some out else fs q, [(path, out)])).2.2 = [(path, c)]
  rw [hfix]

/-- Witness for claim C10 on unchanged content: the write is still recorded. -/
theorem write_happens_even_without_change_witness :
    (runFix (fun _ => some c10Text) 0 nameFoo descBar prioBaz).2.2 =
      [(0, c10Text)] :=
  write_happens_even_without_change (fun _ => some c10Text) 0 nameFoo descBar
    prioBaz c10Text rfl (by decide)

end FixLayers
